import Mathlib

/-!
Verification of the MCLauncher asset-installation pipeline
(`src/install/mod.rs`, `src/main.rs`).

The Rust source is shallowly embedded: pure computations become Lean
functions over `List Nat` byte buffers and `String`s; the filesystem is an
association list from paths to byte contents; the HTTP client and the
serde library are external collaborators and are modelled as explicit
oracle parameters.  Machine integers are `Nat` with explicit `% 2 ^ 32`
masking where the SHA-1 rounds overflow.
-/

/-- Byte buffers (`&[u8]` / `bytes::Bytes`): each element is below 256. -/
abbrev Bytes := List Nat

/-! ## SHA-1 (the `sha1` crate) over byte lists

The `sha1` crate used by `Sha1Compare::sha1_cmp` is an external library;
this is the standard SHA-1 algorithm (FIPS 180) written out over `Nat`
with explicit `% 2 ^ 32` masking.  All recursions are structural (fuel
where needed) so the kernel can evaluate concrete digests.
-/

/-- 32-bit left rotation of a word already reduced below `2 ^ 32`. -/
def rotl32 (n x : Nat) : Nat :=
  ((x <<< n) ||| (x >>> (32 - n))) % 4294967296

/-- Big-endian 4-byte encoding of a 32-bit word. -/
def beBytes4 (n : Nat) : Bytes :=
  [(n >>> 24) % 256, (n >>> 16) % 256, (n >>> 8) % 256, n % 256]

/-- Big-endian 8-byte encoding of the 64-bit message length field. -/
def beBytes8 (n : Nat) : Bytes :=
  [(n >>> 56) % 256, (n >>> 48) % 256, (n >>> 40) % 256, (n >>> 32) % 256,
   (n >>> 24) % 256, (n >>> 16) % 256, (n >>> 8) % 256, n % 256]

/-- SHA-1 padding: append `0x80`, zeros to 56 mod 64, then the bit length. -/
def sha1pad (msg : Bytes) : Bytes :=
  msg ++ [128] ++ List.replicate ((119 - msg.length % 64) % 64) 0
      ++ beBytes8 (msg.length * 8)

/-- Group bytes into big-endian 32-bit words (length divisible by 4). -/
def toWords : Bytes → List Nat
  | a :: b :: c :: d :: rest => (((a * 256 + b) * 256 + c) * 256 + d) :: toWords rest
  | _ => []

/-- Message-schedule extension step, performed `n` times. -/
def extendW (ws : List Nat) : Nat → List Nat
  | 0 => ws
  | n + 1 =>
    let prev := extendW ws n
    prev ++ [rotl32 1 ((prev.getD (prev.length - 3) 0) ^^^
                       (prev.getD (prev.length - 8) 0) ^^^
                       (prev.getD (prev.length - 14) 0) ^^^
                       (prev.getD (prev.length - 16) 0))]

/-- The 80-word message schedule of one 64-byte block. -/
def schedule (block : Bytes) : List Nat :=
  extendW (toWords block) 64

/-- SHA-1 round function, selected by round index. -/
def sha1f (i b c d : Nat) : Nat :=
  if i < 20 then (b &&& c) ||| ((b ^^^ 4294967295) &&& d)
  else if i < 40 then b ^^^ c ^^^ d
  else if i < 60 then (b &&& c) ||| (b &&& d) ||| (c &&& d)
  else b ^^^ c ^^^ d

/-- SHA-1 round constants, selected by round index. -/
def sha1k (i : Nat) : Nat :=
  if i < 20 then 1518500249
  else if i < 40 then 1859775393
  else if i < 60 then 2400959708
  else 3395469782

/-- The 80 compression rounds over the schedule words. -/
def sha1loop : Nat → Nat × Nat × Nat × Nat × Nat → List Nat → Nat × Nat × Nat × Nat × Nat
  | _, st, [] => st
  | i, (a, b, c, d, e), w :: rest =>
    let temp := (rotl32 5 a + sha1f i b c d + e + sha1k i + w) % 4294967296
    sha1loop (i + 1) (temp, a, rotl32 30 b, c, d) rest

/-- Process one 64-byte block, updating the five state words. -/
def sha1block (st : Nat × Nat × Nat × Nat × Nat) (block : Bytes) :
    Nat × Nat × Nat × Nat × Nat :=
  match st with
  | (h0, h1, h2, h3, h4) =>
    match sha1loop 0 (h0, h1, h2, h3, h4) (schedule block) with
    | (a, b, c, d, e) =>
      ((h0 + a) % 4294967296, (h1 + b) % 4294967296, (h2 + c) % 4294967296,
       (h3 + d) % 4294967296, (h4 + e) % 4294967296)

/-- Cut a padded message into 64-byte blocks (fuel keeps this structural). -/
def chunksGo : Nat → Bytes → List Bytes
  | 0, _ => []
  | fuel + 1, l => if l.isEmpty then [] else l.take 64 :: chunksGo fuel (l.drop 64)

/-- All 64-byte blocks of a padded message. -/
def chunks64 (l : Bytes) : List Bytes :=
  chunksGo (l.length + 1) l

/-- The 20-byte SHA-1 digest of a byte buffer. -/
def sha1Bytes (msg : Bytes) : Bytes :=
  match (chunks64 (sha1pad msg)).foldl sha1block
      (1732584193, 4023233417, 2562383102, 271733878, 3285377520) with
  | (h0, h1, h2, h3, h4) =>
    beBytes4 h0 ++ beBytes4 h1 ++ beBytes4 h2 ++ beBytes4 h3 ++ beBytes4 h4

/-- Lowercase hexadecimal digit for a value below 16 (`hex::encode`). -/
def hexDigit (n : Nat) : Char :=
  if n < 10 then Char.ofNat (48 + n) else Char.ofNat (87 + n)

/-- Lowercase hex string of a byte buffer, as produced by `hex::encode`. -/
def hexEncode (bs : Bytes) : String :=
  String.mk (bs.flatMap (fun b => [hexDigit (b / 16), hexDigit (b % 16)]))

/-- Lowercase hex SHA-1 digest of a byte buffer. -/
def sha1hex (msg : Bytes) : String :=
  hexEncode (sha1Bytes msg)

/-! ## `Sha1Compare::sha1_cmp` (src/install/mod.rs lines 29-39)

Rust compares `String`s lexicographically on UTF-8 bytes; since UTF-8
preserves code-point order this agrees with comparing the character lists
by code point.
-/

/-- Lexicographic character comparison by code point (Rust `str` order). -/
def charCmp (a b : Char) : Ordering :=
  if a = b then Ordering.eq else if a < b then Ordering.lt else Ordering.gt

/-- Lexicographic list comparison, as Rust `String::cmp`. -/
def listCmp : List Char → List Char → Ordering
  | [], [] => Ordering.eq
  | [], _ :: _ => Ordering.lt
  | _ :: _, [] => Ordering.gt
  | a :: as, b :: bs =>
    match charCmp a b with
    | Ordering.eq => listCmp as bs
    | o => o

/-- Rust `String::cmp`, over the character lists. -/
def string_cmp (a b : String) : Ordering :=
  listCmp a.data b.data

/-- `Sha1Compare::sha1_cmp` (src/install/mod.rs lines 33-38): hash the
buffer with SHA-1, encode as lowercase hex, and compare with the expected
digest string.  A pure function of its two inputs. -/
def sha1_cmp (data : Bytes) (sha1code : String) : Ordering :=
  string_cmp (hexEncode (sha1Bytes data)) sha1code

/-! ## UTF-8 encoding of strings

`sha1_cmp` is invoked on `String` bodies as well (via `AsRef<[u8]>`,
which yields the UTF-8 bytes), and `fs::write` persists those same
bytes.  Standard UTF-8 encoding of a single code point follows.
-/

/-- UTF-8 bytes of one character. -/
def utf8Char (c : Char) : Bytes :=
  let n := c.toNat
  if n < 128 then [n]
  else if n < 2048 then [192 + n / 64, 128 + n % 64]
  else if n < 65536 then [224 + n / 4096, 128 + (n / 64) % 64, 128 + n % 64]
  else [240 + n / 262144, 128 + (n / 4096) % 64, 128 + (n / 64) % 64, 128 + n % 64]

/-- UTF-8 bytes of a string (what `AsRef<[u8]>` and `fs::write` see). -/
def strBytes (s : String) : Bytes :=
  s.data.flatMap utf8Char

/-! ## `DomainReplacer::replace_domain` (src/install/mod.rs lines 21-27)

The source compiles the regex `https://\S+?/` (a literal scheme, one or
more lazily-matched non-whitespace characters, then a slash), takes the
first match of the whole subject string, and calls Rust
`String::replace`, which substitutes the mirror for EVERY non-overlapping
occurrence of the matched text, scanning left to right.  The two
`unwrap` calls panic when the regex has no match; the panic is modelled
as `none`.
-/

/-- The literal characters of the regex scheme part. -/
def httpsLit : List Char := "https://".data

/-- Position of the first slash, requiring non-whitespace on the way
(the lazy `\S+?/` tail after its mandatory first character). -/
def slashScan : List Char → Option Nat
  | [] => none
  | c :: cs =>
    if c = '/' then some 0
    else if c.isWhitespace then none
    else (slashScan cs).map (fun j => j + 1)

/-- Number of characters the lazy `\S+?/` part consumes after `https://`,
when it matches at this position. -/
def lazyCapture : List Char → Option Nat
  | [] => none
  | c :: cs => if c.isWhitespace then none else (slashScan cs).map (fun j => j + 2)

/-- Leftmost match of `https://\S+?/`: the regex engine tries every start
position from the left and the lazy quantifier takes the shortest tail. -/
def findCapture : List Char → Option (List Char)
  | [] => none
  | c :: cs =>
    if httpsLit.isPrefixOf (c :: cs) then
      match lazyCapture ((c :: cs).drop httpsLit.length) with
      | some n => some ((c :: cs).take (httpsLit.length + n))
      | none => findCapture cs
    else findCapture cs

/-- Does `pat` occur as a contiguous sublist? (Left-to-right scan.) -/
def occursIn (pat : List Char) : List Char → Bool
  | [] => false
  | c :: cs => pat.isPrefixOf (c :: cs) || occursIn pat cs

/-- Rust `String::replace` scan for a nonempty pattern `p :: ps`: at each
position, if the pattern matches, emit the replacement and skip the
match, otherwise keep the character.  Fuel (any value above the subject
length) keeps the recursion structural. -/
def rustReplaceGo (p : Char) (ps rep : List Char) : Nat → List Char → List Char
  | 0, s => s
  | _ + 1, [] => []
  | fuel + 1, c :: cs =>
    if (p :: ps).isPrefixOf (c :: cs) then
      rep ++ rustReplaceGo p ps rep fuel ((c :: cs).drop (ps.length + 1))
    else
      c :: rustReplaceGo p ps rep fuel cs

/-- Rust `String::replace` on character lists; the pattern is never empty
here (every regex capture starts with `https://`). -/
def rustReplace (pat rep s : List Char) : List Char :=
  match pat with
  | [] => s
  | p :: ps => rustReplaceGo p ps rep (s.length + 1) s

/-- `DomainReplacer::replace_domain for String` (src/install/mod.rs lines
21-27): find the first `https://\S+?/` match and replace every occurrence
of the matched text with `domain`.  `none` models the `unwrap` panic when
the regex does not match. -/
def replace_domain (s domain : String) : Option String :=
  match findCapture s.data with
  | none => none
  | some cap => some (String.mk (rustReplace cap domain.data s.data))

/-! ## Data model

The structures below live in the crate's `config` module, which is not
part of the sources under verification; their shapes are modelled from
the spec (sections 3 and 6) and from how `src/install/mod.rs` uses them.
Only the fields this pipeline reads are included.
-/

/-- Modelled from the spec: mirror base URLs of `RuntimeConfig.mirror`
(`MCMirror`); the pipeline reads `version_manifest` and `assets`. -/
structure MCMirror where
  version_manifest : String
  assets : String
deriving DecidableEq

/-- Modelled from the spec: the runtime configuration; the pipeline reads
`game_version` and `mirror`. -/
structure RuntimeConfig where
  game_version : String
  mirror : MCMirror
deriving DecidableEq

/-- Modelled from the spec: one entry of the asset index `objects` map:
`ObjectEntry{hash: hex-sha1, size}`. -/
structure ObjectEntry where
  hash : String
  size : Nat
deriving DecidableEq

/-- Modelled from the spec: the parsed asset index document
`{objects: mapping from logical-asset-name to ObjectEntry}`; the map is
modelled as an association list (iteration order is irrelevant per spec). -/
structure AssetJson where
  objects : List (String × ObjectEntry)
deriving DecidableEq

/-- Modelled from the spec: the `assetIndex` reference
`{id, url, sha1, size}` inside a version descriptor. -/
structure AssetIndex where
  id : String
  url : String
  sha1 : String
  size : Nat
deriving DecidableEq

/-- Modelled from the spec: one entry of the version manifest,
`VersionEntry{id, type, url}` (source field `r#type`). -/
structure VersionEntry where
  id : String
  type : String
  url : String
deriving DecidableEq

/-- Modelled from the spec: the version manifest, an ordered list of
entries. -/
structure VersionManifestJson where
  versions : List VersionEntry
deriving DecidableEq

/-- Modelled from the spec: the `list` subcommand filter. -/
inductive VersionType where
  | All
  | Release
  | Snapshot
deriving DecidableEq

/-- A minimal JSON value model for `serde_json::Value` (the version
descriptor is handled as a semi-opaque structured document). -/
inductive JsonValue where
  | null
  | bool (b : Bool)
  | num (n : Nat)
  | str (s : String)
  | arr (xs : List JsonValue)
  | obj (fields : List (String × JsonValue))

/-- Association-list field lookup used by `jsonGet`. -/
def jsonLookup (key : String) : List (String × JsonValue) → JsonValue
  | [] => JsonValue.null
  | (k, v) :: rest => if k = key then v else jsonLookup key rest

/-- `serde_json::Value` indexing `value["key"]`: the field of an object,
`Null` for a missing field or a non-object. -/
def jsonGet (v : JsonValue) (key : String) : JsonValue :=
  match v with
  | JsonValue.obj fields => jsonLookup key fields
  | _ => JsonValue.null

/-- `serde_json::from_value::<AssetIndex>`: modelled from the spec shape
`{id, url, sha1, size}` with string ids/urls/digests and a numeric size;
any missing or mistyped field is a deserialization error (`none`). -/
def from_value_assetIndex (v : JsonValue) : Option AssetIndex :=
  match jsonGet v "id", jsonGet v "url", jsonGet v "sha1", jsonGet v "size" with
  | JsonValue.str i, JsonValue.str u, JsonValue.str s, JsonValue.num n =>
    some (AssetIndex.mk i u s n)
  | _, _, _, _ => none

/-! ## Filesystem and network models

The filesystem is an association list from path strings to byte
contents; a later write shadows an earlier binding, so lookup returns
the most recent content.  Directories are implicit (`create_dir_all` has
no observable effect here and every write in the pipeline targets a
file path).  The blocking HTTP client is an oracle giving the outcome of
the `k`-th GET of a URL.
-/

/-- The filesystem: newest binding first. -/
abbrev Fs := List (String × Bytes)

/-- `fs::write`: (over)write a file. -/
def fsWrite (fs : Fs) (p : String) (d : Bytes) : Fs :=
  (p, d) :: fs

/-- Content of the newest binding of a path, if any. -/
def lookupFs : Fs → String → Option Bytes
  | [], _ => none
  | (q, d) :: fs, p => if p = q then some d else lookupFs fs p

/-- `PathExist::path_exists` (src/install/mod.rs lines 41-45):
`fs::metadata(path).is_ok()`. -/
def path_exists (fs : Fs) (p : String) : Bool :=
  (lookupFs fs p).isSome

/-- Outcome of one `client.get(url).send()` on the byte-fetch path:
the send itself can fail, reading the body (`.bytes()`) can fail, or a
full body arrives. -/
inductive SendOutcome where
  | sendErr
  | bodyErr
  | body (data : Bytes)
deriving DecidableEq

/-- Outcome of one `client.get(url).send()` on a text-fetch path
(`send` error, `.text()` error, or a body string). -/
inductive TextOutcome where
  | sendErr
  | textErr
  | text (s : String)
deriving DecidableEq

/-- The `anyhow::Error` values produced by the installer, by source:
`reqwest` transport/body errors propagated by `?`, `serde` parse errors
propagated by `?`, and the two `anyhow!` messages. -/
inductive PError where
  | reqwest
  | serde
  | cantGetAssets
  | downloadFail (url : String)
deriving DecidableEq

/-- Result of an installer entry point, distinguishing a returned
`anyhow::Result` from a Rust panic (`unwrap` on `None`). -/
inductive RRes (α : Type) where
  | ok (a : α)
  | err (e : PError)
  | panicked
deriving DecidableEq

/-! ## `install_bytes_with_timeout` (src/install/mod.rs lines 63-78)

`for _ in 0..3 { ... }`: at most three attempts.  A failed `send()`
falls through to the next iteration; a successful send whose body read
(`_send.bytes()?`) fails propagates that error immediately through `?`;
a verified body returns.  The second component of the result counts the
attempts performed (instrumentation for the retry-budget claims; it does
not appear in the source, which only loops).
-/

/-- The attempt loop of `install_bytes_with_timeout`: `net k` is the
outcome of the `k`-th GET; the first `Nat` is remaining iterations, the
second counts attempts already made. -/
def fetchLoop (net : Nat → SendOutcome) (url sha1c : String) :
    Nat → Nat → Except PError Bytes × Nat
  | 0, k => (Except.error (PError.downloadFail url), k)
  | n + 1, k =>
    match net k with
    | SendOutcome.sendErr => fetchLoop net url sha1c n (k + 1)
    | SendOutcome.bodyErr => (Except.error PError.reqwest, k + 1)
    | SendOutcome.body d =>
      match sha1_cmp d sha1c with
      | Ordering.eq => (Except.ok d, k + 1)
      | _ => fetchLoop net url sha1c n (k + 1)

/-- `install_bytes_with_timeout(url, sha1)` with its three-iteration
budget, plus the attempt count. -/
def install_bytes_with_timeout (net : Nat → SendOutcome) (url sha1c : String) :
    Except PError Bytes × Nat :=
  fetchLoop net url sha1c 3 0

/-! ## `install_assets` (src/install/mod.rs lines 80-99)

The per-object sync loop.  `slice2` models the byte slice `&hash[0..2]`
(identical to the first two characters for the ASCII hex digests this
code handles).  The third result component counts the calls made to
`install_bytes_with_timeout` (instrumentation for the "zero network
fetches" property; the source's `cnt` only feeds the progress line).
-/

/-- The Rust slice `&hash[0..2]`. -/
def slice2 (s : String) : String :=
  String.mk (s.data.take 2)

/-- Hash-derived object-store path `assets/objects/<h[0..2]>/<h>`
(the `file` variable of `install_assets`). -/
def objPath (h : String) : String :=
  "assets/objects/" ++ slice2 h ++ "/" ++ h

/-- Mirror URL of an object, `config.mirror.assets + &hash[0..2] + "/" + hash`. -/
def objUrl (cfg : RuntimeConfig) (h : String) : String :=
  cfg.mirror.assets ++ slice2 h ++ "/" ++ h

/-- The `for (_, v) in &asset_json.objects` loop of `install_assets`:
skip an object whose file exists, otherwise fetch, verify (inside
`install_bytes_with_timeout`) and write; any fetch error aborts via `?`. -/
def install_assets_go (onet : String → Nat → SendOutcome) (cfg : RuntimeConfig) :
    List (String × ObjectEntry) → Fs → Nat → Except PError Unit × Fs × Nat
  | [], fs, fetches => (Except.ok (), fs, fetches)
  | nv :: rest, fs, fetches =>
    if path_exists fs (objPath nv.2.hash) then
      install_assets_go onet cfg rest fs fetches
    else
      match (install_bytes_with_timeout (onet (objUrl cfg nv.2.hash))
              (objUrl cfg nv.2.hash) nv.2.hash).1 with
      | Except.error e => (Except.error e, fs, fetches + 1)
      | Except.ok data =>
        install_assets_go onet cfg rest (fsWrite fs (objPath nv.2.hash) data) (fetches + 1)

/-- `install_assets(config, asset_json)`. -/
def install_assets (onet : String → Nat → SendOutcome) (cfg : RuntimeConfig)
    (asset_json : AssetJson) (fs : Fs) : Except PError Unit × Fs × Nat :=
  install_assets_go onet cfg asset_json.objects fs 0

/-! ## Oracle environment

All external collaborators of the pipeline, bundled: the HTTP client
(per-URL, per-attempt outcomes) and the serde library (parsing and
pretty-printing are external crate behavior, modelled as functions the
environment supplies).
-/

/-- The external environment of one pipeline run. -/
structure Env where
  manifestNet : String → Option VersionManifestJson
  versionNet : String → TextOutcome
  parseValue : String → Option JsonValue
  pretty : JsonValue → String
  idxNet : String → Nat → TextOutcome
  parseAssetJson : String → Option AssetJson
  objNet : String → Nat → SendOutcome

/-! ## `install_assets_and_asset_index` (src/install/mod.rs lines 101-134)

`for i in 0..=3` — four iterations.  Each iteration re-fetches the
asset-index text; `send()?` and `.text()?` failures propagate
immediately.  On a digest match the body is written verbatim to
`assets/indexes/<id>.json`, parsed, handed to `install_assets`, and the
loop breaks; on the last iteration (`i == 3`) a mismatch returns the
terminal `anyhow!("can not get assets json")`-style error.
-/

/-- Aggregate outcome of `install_assets_and_asset_index`: the result,
the final filesystem, the number of asset-index fetch attempts made, and
the number of object fetcher calls made (both counters are
instrumentation; the source only performs the effects). -/
structure IdxOut where
  res : RRes Unit
  fs : Fs
  attempts : Nat
  fetches : Nat
deriving DecidableEq

/-- The `for i in 0..=3` retry loop of `install_assets_and_asset_index`;
`i` is the loop counter, the last argument is the remaining fuel
(starting at 4, always above the remaining iterations). -/
def idxLoop (tnet : Nat → TextOutcome) (parseA : String → Option AssetJson)
    (onet : String → Nat → SendOutcome) (cfg : RuntimeConfig) (ass : AssetIndex)
    (idxfile : String) (fs : Fs) : Nat → Nat → IdxOut
  | _, 0 => IdxOut.mk (RRes.ok ()) fs 0 0
  | i, fuel + 1 =>
    match tnet i with
    | TextOutcome.sendErr => IdxOut.mk (RRes.err PError.reqwest) fs (i + 1) 0
    | TextOutcome.textErr => IdxOut.mk (RRes.err PError.reqwest) fs (i + 1) 0
    | TextOutcome.text data =>
      if sha1_cmp (strBytes data) ass.sha1 = Ordering.eq then
        match parseA data with
        | none => IdxOut.mk (RRes.err PError.serde) (fsWrite fs idxfile (strBytes data)) (i + 1) 0
        | some aj =>
          match install_assets onet cfg aj (fsWrite fs idxfile (strBytes data)) with
          | (Except.error e, fs2, f) => IdxOut.mk (RRes.err e) fs2 (i + 1) f
          | (Except.ok _, fs2, f) => IdxOut.mk (RRes.ok ()) fs2 (i + 1) f
      else if i = 3 then
        IdxOut.mk (RRes.err PError.cantGetAssets) fs (i + 1) 0
      else
        idxLoop tnet parseA onet cfg ass idxfile fs (i + 1) fuel

/-- `install_assets_and_asset_index(config, version_json)`: extract the
`assetIndex` reference, rewrite its URL to the mirror (panic when the
regex misses), then run the retry loop. -/
def install_assets_and_asset_index (env : Env) (cfg : RuntimeConfig)
    (version_json : JsonValue) (fs : Fs) : IdxOut :=
  match from_value_assetIndex (jsonGet version_json "assetIndex") with
  | none => IdxOut.mk (RRes.err PError.serde) fs 0 0
  | some ass =>
    match replace_domain ass.url cfg.mirror.version_manifest with
    | none => IdxOut.mk RRes.panicked fs 0 0
    | some url =>
      idxLoop (env.idxNet url) env.parseAssetJson env.objNet cfg ass
        ("assets/indexes/" ++ ass.id ++ ".json") fs 0 4

/-! ## `get_version_json` (src/install/mod.rs lines 136-159) and
`VersionManifestJson::new` (lines 161-173) -/

/-- The manifest URL built by `VersionManifestJson::new`. -/
def manifestUrl (cfg : RuntimeConfig) : String :=
  cfg.mirror.version_manifest ++ "mc/game/version_manifest.json"

/-- `get_version_json(config)`: fetch the manifest, locate the entry for
`config.game_version` (`.find(..).unwrap()` panics when absent), rewrite
its URL to the mirror (panic when the regex misses), fetch the
descriptor text and parse it as a `serde_json::Value`. -/
def get_version_json (env : Env) (cfg : RuntimeConfig) : RRes JsonValue :=
  match env.manifestNet (manifestUrl cfg) with
  | none => RRes.err PError.reqwest
  | some manifest =>
    match manifest.versions.find? (fun x => x.id == cfg.game_version) with
    | none => RRes.panicked
    | some entry =>
      match replace_domain entry.url cfg.mirror.version_manifest with
      | none => RRes.panicked
      | some url =>
        match env.versionNet url with
        | TextOutcome.sendErr => RRes.err PError.reqwest
        | TextOutcome.textErr => RRes.err PError.reqwest
        | TextOutcome.text data =>
          match env.parseValue data with
          | none => RRes.err PError.serde
          | some v => RRes.ok v

/-! ## `install_mc` (src/install/mod.rs lines 47-61) -/

/-- The version descriptor file path
`versions/<version>/<version>.json` built by `install_mc`. -/
def versionJsonFile (cfg : RuntimeConfig) : String :=
  "versions/" ++ cfg.game_version ++ "/" ++ cfg.game_version ++ ".json"

/-- `install_mc(config)`: resolve the version descriptor, write its
pretty-printed form under `versions/`, then synchronize assets.
`create_dir_all(..).unwrap_or(())` has no filesystem-model effect and
`serde_json::to_string_pretty` is the environment's `pretty`. -/
def install_mc (env : Env) (cfg : RuntimeConfig) (fs : Fs) : RRes Unit × Fs :=
  match get_version_json env cfg with
  | RRes.panicked => (RRes.panicked, fs)
  | RRes.err e => (RRes.err e, fs)
  | RRes.ok version_json =>
    let fs1 := fsWrite fs (versionJsonFile cfg) (strBytes (env.pretty version_json))
    match install_assets_and_asset_index env cfg version_json fs1 with
    | IdxOut.mk (RRes.ok _) fs2 _ _ => (RRes.ok (), fs2)
    | IdxOut.mk (RRes.err e) fs2 _ _ => (RRes.err e, fs2)
    | IdxOut.mk RRes.panicked fs2 _ _ => (RRes.panicked, fs2)

/-! ## `VersionManifestJson::version_list` (src/install/mod.rs lines 175-191) -/

/-- `version_list(version_type)`: ids of all entries, or of the entries
whose `type` field is "release" / "snapshot", in manifest order. -/
def VersionManifestJson.version_list (m : VersionManifestJson)
    (version_type : VersionType) : List String :=
  match version_type with
  | VersionType.All => m.versions.map (fun x => x.id)
  | VersionType.Release =>
    (m.versions.filter (fun x => x.type == "release")).map (fun x => x.id)
  | VersionType.Snapshot =>
    (m.versions.filter (fun x => x.type == "snapshot")).map (fun x => x.id)

/-! ## Claim C2: the retrying fetcher -/

/-- An attempt that the source's loop retries: a failed `send()`, or a
body whose digest mismatches. -/
def attemptFails (net : Nat → SendOutcome) (c : String) (k : Nat) : Prop :=
  net k = SendOutcome.sendErr ∨
  ∃ d, net k = SendOutcome.body d ∧ sha1_cmp d c ≠ Ordering.eq

/-- An oracle whose every send succeeds but whose body read always fails. -/
def badBodyNet : Nat → SendOutcome := fun _ => SendOutcome.bodyErr

/-- An oracle whose every send fails at transport level. -/
def sendErrNet : Nat → SendOutcome := fun _ => SendOutcome.sendErr

/-- A concrete environment whose manifest has only version id "2". -/
def cexEnvC6 : Env :=
  Env.mk
    (fun _ => some (VersionManifestJson.mk [VersionEntry.mk "2" "release" "https://a/b"]))
    (fun _ => TextOutcome.text "x")
    (fun _ => none)
    (fun _ => "")
    (fun _ _ => TextOutcome.sendErr)
    (fun _ => none)
    (fun _ _ => SendOutcome.sendErr)

/-- A concrete configuration selecting the absent version id "1". -/
def cexCfgC6 : RuntimeConfig :=
  RuntimeConfig.mk "1" (MCMirror.mk "https://m/" "https://m/assets/")

/-! ## Path algebra: the object store, index and version file paths -/

/-- Boolean string-prefix test over the character lists. -/
def strStartsWith (pre s : String) : Bool :=
  pre.data.isPrefixOf s.data

/-- The 40-hex-character SHA-1 digest of the empty byte buffer. -/
def hashNil : String := "da39a3ee5e6b4b0d3255bfef95601890afd80709"

/-- A configuration with mirror bases `https://m/` and version 1.20.4. -/
def cexCfgA : RuntimeConfig :=
  RuntimeConfig.mk "1.20.4" (MCMirror.mk "https://m/" "https://m/assets/")

/-- An object oracle always answering with an empty verified body. -/
def emptyBodyNet : String → Nat → SendOutcome :=
  fun _ _ => SendOutcome.body []

/-- An environment whose asset-index fetch returns the empty body, which
the descriptor below declares (its digest is `hashNil`). -/
def c8Env : Env :=
  Env.mk (fun _ => none) (fun _ => TextOutcome.sendErr) (fun _ => none)
    (fun _ => "") (fun _ _ => TextOutcome.text "")
    (fun _ => some (AssetJson.mk [])) (fun _ _ => SendOutcome.sendErr)

/-- A version descriptor whose assetIndex declares id 5 and the digest of
the empty body. -/
def c8Vj : JsonValue :=
  JsonValue.obj [("assetIndex", JsonValue.obj
    [("id", JsonValue.str "5"), ("url", JsonValue.str "https://a/x"),
     ("sha1", JsonValue.str hashNil), ("size", JsonValue.num 1)])]

/-- An environment whose asset-index fetch always returns the body "Z". -/
def c3Env : Env :=
  Env.mk (fun _ => none) (fun _ => TextOutcome.sendErr) (fun _ => none)
    (fun _ => "") (fun _ _ => TextOutcome.text "Z") (fun _ => none)
    (fun _ _ => SendOutcome.sendErr)

/-- A version descriptor whose assetIndex declares the digest "00",
which no body can match. -/
def c3Vj : JsonValue :=
  JsonValue.obj [("assetIndex", JsonValue.obj
    [("id", JsonValue.str "5"), ("url", JsonValue.str "https://a/x"),
     ("sha1", JsonValue.str "00"), ("size", JsonValue.num 1)])]

/-- An asset index with two distinct entries sharing one hash. -/
def ajDup : AssetJson :=
  AssetJson.mk [("a", ObjectEntry.mk hashNil 0), ("b", ObjectEntry.mk hashNil 0)]

/-- An asset index with a single entry for the empty body. -/
def ajOne : AssetJson :=
  AssetJson.mk [("icon.png", ObjectEntry.mk hashNil 0)]

/-- An environment resolving version 1.20.4 whose asset phase fails at
the assetIndex extraction (the descriptor has no such field). -/
def c10Env : Env :=
  Env.mk
    (fun _ => some (VersionManifestJson.mk
      [VersionEntry.mk "1.20.4" "release" "https://a/b"]))
    (fun _ => TextOutcome.text "x")
    (fun _ => some (JsonValue.obj []))
    (fun _ => "P")
    (fun _ _ => TextOutcome.sendErr)
    (fun _ => none)
    (fun _ _ => SendOutcome.sendErr)

/-! ## Theorems -/

set_option maxRecDepth 100000

/-! ## Generic list helpers used throughout the development -/

/-- First `n` elements of an appended list, when the left part is kept whole. -/
theorem take_append_len (a b : List Char) (n : Nat) :
    (a ++ b).take (a.length + n) = a ++ b.take n :=
  List.take_append n

/-- Dropping exactly the left part of an appended list. -/
theorem drop_append_len (a b : List Char) :
    (a ++ b).drop a.length = b :=
  List.drop_left a b

/-- Appended lists with distinct initial segments are distinct. -/
theorem ne_of_distinct_starts (a b x y : List Char) (k : Nat)
    (ha : k ≤ a.length) (hb : k ≤ b.length) (hne : a.take k ≠ b.take k) :
    a ++ x ≠ b ++ y := by
  intro he
  apply hne
  rw [← List.take_append_of_le_length ha, he, List.take_append_of_le_length hb]

/-- Boolean list-prefix test agrees with an explicit decomposition. -/
theorem isPrefixOf_iff_exists (a : List Char) : ∀ (l : List Char),
    a.isPrefixOf l = true ↔ ∃ t, l = a ++ t := by
  induction a with
  | nil => intro l; simp [List.isPrefixOf]
  | cons c cs ih =>
    intro l
    cases l with
    | nil => simp [List.isPrefixOf]
    | cons d ds =>
      simp only [List.isPrefixOf, Bool.and_eq_true, beq_iff_eq, ih ds]
      constructor
      · rintro ⟨rfl, t, rfl⟩; exact ⟨t, rfl⟩
      · rintro ⟨t, ht⟩
        simp only [List.cons_append, List.cons.injEq] at ht
        exact ⟨ht.1.symm, t, ht.2⟩

/-- A list is a Boolean prefix of itself extended by anything. -/
theorem isPrefixOf_append_self (a b : List Char) :
    a.isPrefixOf (a ++ b) = true :=
  (isPrefixOf_iff_exists a (a ++ b)).mpr ⟨b, rfl⟩

/-- Sanity: the SHA-1 embedding reproduces the digest of the empty message. -/
theorem sha1hex_nil :
    sha1hex [] = "da39a3ee5e6b4b0d3255bfef95601890afd80709" := by decide

/-- Sanity: the SHA-1 embedding reproduces the digest of "abc". -/
theorem sha1hex_abc :
    sha1hex [97, 98, 99] = "a9993e364706816aba3e25717850c26c9cd0d89d" := by decide

/-- `listCmp` returns `eq` exactly on equal lists. -/
theorem listCmp_eq_iff : ∀ (a b : List Char), listCmp a b = Ordering.eq ↔ a = b := by
  intro a
  induction a with
  | nil => intro b; cases b <;> simp [listCmp]
  | cons c cs ih =>
    intro b
    cases b with
    | nil => simp [listCmp]
    | cons d ds =>
      by_cases hcd : c = d
      · subst hcd
        simp [listCmp, charCmp, ih ds]
      · have hcc : charCmp c d = Ordering.lt ∨ charCmp c d = Ordering.gt := by
          unfold charCmp
          rw [if_neg hcd]
          split
          · exact Or.inl rfl
          · exact Or.inr rfl
        rcases hcc with h | h <;> simp [listCmp, h, hcd]

/-- `string_cmp` returns `eq` exactly on equal strings (as Rust byte order). -/
theorem string_cmp_eq_iff (a b : String) :
    string_cmp a b = Ordering.eq ↔ a = b := by
  unfold string_cmp
  rw [listCmp_eq_iff]
  constructor
  · intro h
    cases a
    cases b
    exact congrArg String.mk h
  · intro h
    rw [h]

/-- `sha1_cmp` returns `eq` exactly when the expected digest is the real one. -/
theorem sha1_cmp_eq_iff (data : Bytes) (code : String) :
    sha1_cmp data code = Ordering.eq ↔ sha1hex data = code := by
  unfold sha1_cmp sha1hex
  exact string_cmp_eq_iff _ _

/-! ## Claim C1: the hash verifier -/

/-- C1: for every byte buffer `b`, `sha1_cmp b (sha1hex b)` is `Equal`,
and for every digest string `d` different from the lowercase hex SHA-1
digest of `b`, `sha1_cmp b d` is not `Equal`.  (`sha1_cmp` is a plain
function of its two arguments, hence pure.) -/
theorem sha1_cmp_verifies :
    ∀ (b : Bytes) (d : String),
    sha1_cmp b (sha1hex b) = Ordering.eq ∧
    (d ≠ sha1hex b → sha1_cmp b d ≠ Ordering.eq) := by
  intro b d
  constructor
  · exact (sha1_cmp_eq_iff b (sha1hex b)).mpr rfl
  · intro hne heq
    exact hne ((sha1_cmp_eq_iff b d).mp heq).symm

/-- C1 witness: the two parts of `sha1_cmp_verifies` at the empty buffer
and the digest "00". -/
theorem sha1_cmp_verifies_witness :
    sha1_cmp [] (sha1hex []) = Ordering.eq ∧ sha1_cmp [] "00" ≠ Ordering.eq :=
  ⟨(sha1_cmp_verifies [] "00").1, (sha1_cmp_verifies [] "00").2 (by decide)⟩

/-! ## Claim C9: `version_list` -/

/-- C9: `version_list All` returns every entry id in manifest order;
`version_list Release` returns exactly the ids of the entries whose type
is "release", in manifest order (in particular a sublist of the full
listing). -/
theorem version_list_spec :
    ∀ (m : VersionManifestJson),
    m.version_list VersionType.All = m.versions.map (fun v => v.id) ∧
    m.version_list VersionType.Release =
      (m.versions.filter (fun v => v.type == "release")).map (fun v => v.id) ∧
    List.Sublist (m.version_list VersionType.Release)
      (m.version_list VersionType.All) := by
  intro m
  refine ⟨rfl, rfl, ?_⟩
  exact (List.filter_sublist m.versions).map (fun v => v.id)

/-- A retried attempt consumes one loop iteration. -/
theorem fetchLoop_step (net : Nat → SendOutcome) (c url : String) (k n : Nat)
    (h : attemptFails net c k) :
    fetchLoop net url c (n + 1) k = fetchLoop net url c n (k + 1) := by
  rcases h with h | ⟨d, hd, hne⟩
  · simp [fetchLoop, h]
  · have hc : sha1_cmp d c = Ordering.lt ∨ sha1_cmp d c = Ordering.gt := by
      cases hx : sha1_cmp d c
      · exact Or.inl rfl
      · exact absurd hx hne
      · exact Or.inr rfl
    rcases hc with hc | hc <;> simp [fetchLoop, hd, hc]

/-- A verified body returns immediately with the attempt count so far. -/
theorem fetchLoop_match (net : Nat → SendOutcome) (url c : String) (d : Bytes)
    (n k : Nat) (h : net k = SendOutcome.body d)
    (he : sha1_cmp d c = Ordering.eq) :
    fetchLoop net url c (n + 1) k = (Except.ok d, k + 1) := by
  simp [fetchLoop, h, he]

/-- A body-read failure propagates immediately through `?`. -/
theorem fetchLoop_bodyErr (net : Nat → SendOutcome) (url c : String)
    (n k : Nat) (h : net k = SendOutcome.bodyErr) :
    fetchLoop net url c (n + 1) k = (Except.error PError.reqwest, k + 1) := by
  simp [fetchLoop, h]

/-- The attempt counter never exceeds the starting count plus the fuel. -/
theorem fetchLoop_le (net : Nat → SendOutcome) (url c : String) :
    ∀ (n k : Nat), (fetchLoop net url c n k).2 ≤ k + n := by
  intro n
  induction n with
  | zero => intro k; simp [fetchLoop]
  | succ n ih =>
    intro k
    cases hnk : net k with
    | sendErr =>
      rw [fetchLoop_step net c url k n (Or.inl hnk)]
      have := ih (k + 1)
      omega
    | bodyErr =>
      rw [fetchLoop_bodyErr net url c n k hnk]
      show k + 1 ≤ k + (n + 1)
      omega
    | body d =>
      cases hc : sha1_cmp d c with
      | eq =>
        rw [fetchLoop_match net url c d n k hnk hc]
        show k + 1 ≤ k + (n + 1)
        omega
      | lt =>
        rw [fetchLoop_step net c url k n (Or.inr ⟨d, hnk, by simp [hc]⟩)]
        have := ih (k + 1)
        omega
      | gt =>
        rw [fetchLoop_step net c url k n (Or.inr ⟨d, hnk, by simp [hc]⟩)]
        have := ih (k + 1)
        omega

/-- C2 (amended): the fetcher makes at most 3 attempts; when every
attempt fails by a send error or a digest mismatch it returns the
URL-naming error after exactly 3 attempts; a verified body is returned
as soon as its attempt succeeds; but a failure while reading the body of
a successful send is propagated immediately (`_send.bytes()?`) after
consuming only the attempts made so far, instead of being retried. -/
theorem install_bytes_retry_spec :
    ∀ (net : Nat → SendOutcome) (url c : String),
    (install_bytes_with_timeout net url c).2 ≤ 3 ∧
    ((∀ k, k < 3 → attemptFails net c k) →
      install_bytes_with_timeout net url c =
        (Except.error (PError.downloadFail url), 3)) ∧
    (∀ (j : Nat) (d : Bytes), j < 3 → (∀ k, k < j → attemptFails net c k) →
      net j = SendOutcome.body d → sha1_cmp d c = Ordering.eq →
      install_bytes_with_timeout net url c = (Except.ok d, j + 1)) ∧
    (∀ (j : Nat), j < 3 → (∀ k, k < j → attemptFails net c k) →
      net j = SendOutcome.bodyErr →
      install_bytes_with_timeout net url c =
        (Except.error PError.reqwest, j + 1)) := by
  intro net url c
  refine ⟨?_, ?_, ?_, ?_⟩
  · simpa using fetchLoop_le net url c 3 0
  · intro h
    unfold install_bytes_with_timeout
    rw [fetchLoop_step net c url 0 2 (h 0 (by omega)),
        fetchLoop_step net c url 1 1 (h 1 (by omega)),
        fetchLoop_step net c url 2 0 (h 2 (by omega))]
    rfl
  · intro j d hj hpre hbody heq
    unfold install_bytes_with_timeout
    interval_cases j
    · exact fetchLoop_match net url c d 2 0 hbody heq
    · rw [fetchLoop_step net c url 0 2 (hpre 0 (by omega))]
      exact fetchLoop_match net url c d 1 1 hbody heq
    · rw [fetchLoop_step net c url 0 2 (hpre 0 (by omega)),
          fetchLoop_step net c url 1 1 (hpre 1 (by omega))]
      exact fetchLoop_match net url c d 0 2 hbody heq
  · intro j hj hpre hbody
    unfold install_bytes_with_timeout
    interval_cases j
    · exact fetchLoop_bodyErr net url c 2 0 hbody
    · rw [fetchLoop_step net c url 0 2 (hpre 0 (by omega))]
      exact fetchLoop_bodyErr net url c 1 1 hbody
    · rw [fetchLoop_step net c url 0 2 (hpre 0 (by omega)),
          fetchLoop_step net c url 1 1 (hpre 1 (by omega))]
      exact fetchLoop_bodyErr net url c 0 2 hbody

/-- C2 counterexample: with a body-read failure on the first attempt, no
attempt succeeds, yet the fetcher propagates the read error after one
attempt instead of retrying and returning the URL-naming error after 3
attempts as the claim requires. -/
theorem install_bytes_retry_counterexample :
    install_bytes_with_timeout badBodyNet "https://u/" "00" =
      (Except.error PError.reqwest, 1) ∧
    install_bytes_with_timeout badBodyNet "https://u/" "00" ≠
      (Except.error (PError.downloadFail "https://u/"), 3) := by
  constructor
  · rfl
  · intro h
    rw [show install_bytes_with_timeout badBodyNet "https://u/" "00" =
        (Except.error PError.reqwest, 1) from rfl] at h
    simp [Prod.ext_iff] at h

/-- C2 witness: an always-failing transport consumes all three attempts
and yields the URL-naming error. -/
theorem install_bytes_retry_spec_witness :
    install_bytes_with_timeout sendErrNet "https://u/" "00" =
      (Except.error (PError.downloadFail "https://u/"), 3) :=
  (install_bytes_retry_spec sendErrNet "https://u/" "00").2.1
    (fun _ _ => Or.inl rfl)

/-! ## Claim C5: the domain rewriter -/

/-- Scanning a clean segment finds the closing slash right after it. -/
theorem slashScan_clean : ∀ (t r : List Char),
    (∀ x ∈ t, ¬ x.isWhitespace ∧ x ≠ '/') →
    slashScan (t ++ '/' :: r) = some t.length := by
  intro t
  induction t with
  | nil => intro r _; simp [slashScan]
  | cons c cs ih =>
    intro r h
    have hc := h c (by simp)
    simp only [List.cons_append, slashScan, List.append_eq]
    rw [if_neg hc.2, if_neg hc.1, ih r (fun x hx => h x (by simp [hx]))]
    simp [List.length_cons]

/-- The lazy tail consumes a clean nonempty host plus its slash. -/
theorem lazyCapture_url (host rest : List Char) (hne : host ≠ [])
    (hcond : ∀ x ∈ host, ¬ x.isWhitespace ∧ x ≠ '/') :
    lazyCapture (host ++ '/' :: rest) = some (host.length + 1) := by
  cases host with
  | nil => exact absurd rfl hne
  | cons c cs =>
    have hc := hcond c (by simp)
    simp only [List.cons_append, lazyCapture]
    rw [if_neg hc.1, slashScan_clean cs rest (fun x hx => hcond x (by simp [hx]))]
    simp [List.length_cons]

/-- Unfolding `findCapture` at a position where the regex matches. -/
theorem findCapture_of_match (s : List Char) (n : Nat)
    (hpre : httpsLit.isPrefixOf s = true)
    (hlc : lazyCapture (s.drop httpsLit.length) = some n) :
    findCapture s = some (s.take (httpsLit.length + n)) := by
  cases s with
  | nil => exact absurd hpre (by decide)
  | cons c cs =>
    simp only [findCapture]
    rw [if_pos hpre, hlc]

/-- On a well-formed https URL the leftmost capture is exactly the
scheme+authority prefix up to and including the first slash. -/
theorem findCapture_url (host rest : List Char) (hne : host ≠ [])
    (hcond : ∀ x ∈ host, ¬ x.isWhitespace ∧ x ≠ '/') :
    findCapture (httpsLit ++ (host ++ '/' :: rest)) =
      some (httpsLit ++ (host ++ ['/'])) := by
  rw [findCapture_of_match (httpsLit ++ (host ++ '/' :: rest)) (host.length + 1)
      (isPrefixOf_append_self httpsLit (host ++ '/' :: rest))
      (by rw [drop_append_len httpsLit (host ++ '/' :: rest)]
          exact lazyCapture_url host rest hne hcond)]
  rw [take_append_len httpsLit (host ++ '/' :: rest) (host.length + 1),
      take_append_len host ('/' :: rest) 1]
  simp

/-- With no occurrence of the (nonempty) pattern, the replace scan is the
identity. -/
theorem rustReplaceGo_noOccur (p : Char) (ps rep : List Char) :
    ∀ (rest : List Char) (fuel : Nat), rest.length < fuel →
    occursIn (p :: ps) rest = false →
    rustReplaceGo p ps rep fuel rest = rest := by
  intro rest
  induction rest with
  | nil =>
    intro fuel hf _
    cases fuel with
    | zero => omega
    | succ f => rfl
  | cons c cs ih =>
    intro fuel hf ho
    cases fuel with
    | zero => omega
    | succ f =>
      simp only [occursIn, Bool.or_eq_false_iff] at ho
      simp only [rustReplaceGo]
      rw [if_neg (by simp [ho.1]), ih f (by simp at hf ⊢; omega) ho.2]

/-- Replacing a pattern by itself is the identity. -/
theorem rustReplaceGo_self (p : Char) (ps : List Char) :
    ∀ (fuel : Nat) (s : List Char), s.length < fuel →
    rustReplaceGo p ps (p :: ps) fuel s = s := by
  intro fuel
  induction fuel with
  | zero => intro s h; omega
  | succ f ih =>
    intro s h
    cases s with
    | nil => rfl
    | cons c cs =>
      by_cases hp : (p :: ps).isPrefixOf (c :: cs) = true
      · obtain ⟨t, ht⟩ := (isPrefixOf_iff_exists (p :: ps) (c :: cs)).mp hp
        simp only [rustReplaceGo, if_pos hp]
        have hdrop : (c :: cs).drop (ps.length + 1) = t := by
          rw [ht]
          simpa using drop_append_len (p :: ps) t
        have htlen : t.length < f := by
          have hl := congrArg List.length ht
          simp [List.length_append] at hl h
          omega
        rw [hdrop, ih t htlen]
        exact ht.symm
      · simp only [rustReplaceGo, if_neg hp]
        rw [ih cs (by simp at h ⊢; omega)]

/-- Replacing the leading occurrence of a pattern that does not reoccur. -/
theorem rustReplace_once (p : Char) (ps rep rest : List Char)
    (ho : occursIn (p :: ps) rest = false) :
    rustReplace (p :: ps) rep ((p :: ps) ++ rest) = rep ++ rest := by
  unfold rustReplace
  rw [show (p :: ps) ++ rest = p :: (ps ++ rest) from rfl]
  simp only [rustReplaceGo, List.length_cons]
  rw [if_pos (by exact isPrefixOf_append_self (p :: ps) rest)]
  rw [show (p :: (ps ++ rest)).drop (ps.length + 1) = rest from by
      simpa using drop_append_len ps rest]
  rw [rustReplaceGo_noOccur p ps rep rest ((ps ++ rest).length + 1)
      (by simp [List.length_append]; omega) ho]

/-- C5 (amended): on an https URL `https://<host>/<rest>` with a
nonempty host free of whitespace and slashes, `replace_domain` replaces
every occurrence of the matched prefix `https://<host>/`; when that
prefix does not reoccur inside the suffix the result is exactly the
mirror base followed by the untouched suffix; when the mirror equals the
current prefix the URL is returned unchanged (hence the operation is
idempotent there); and the rewriter yields no result (the source panics)
exactly when the regex `https://\S+?/` has no match, which includes
plain http URLs. -/
theorem replace_domain_spec :
    (∀ (host rest : List Char) (m : String), host ≠ [] →
      (∀ x ∈ host, ¬ x.isWhitespace ∧ x ≠ '/') →
      occursIn (httpsLit ++ (host ++ ['/'])) rest = false →
      replace_domain (String.mk (httpsLit ++ (host ++ '/' :: rest))) m =
        some (String.mk (m.data ++ rest))) ∧
    (∀ (u : String) (cap : List Char), findCapture u.data = some cap →
      replace_domain u (String.mk cap) = some u) ∧
    (∀ (u m : String), findCapture u.data = none →
      replace_domain u m = none) := by
  refine ⟨?_, ?_, ?_⟩
  · intro host rest m hne hcond hocc
    have hfc := findCapture_url host rest hne hcond
    have hs : (String.mk (httpsLit ++ (host ++ '/' :: rest))).data =
        httpsLit ++ (host ++ '/' :: rest) := rfl
    simp only [replace_domain, hs, hfc]
    congr 1
    congr 1
    rw [show httpsLit ++ (host ++ '/' :: rest) =
        (httpsLit ++ (host ++ ['/'])) ++ rest from by simp]
    have hcap : httpsLit ++ (host ++ ['/']) =
        'h' :: ("ttps://".data ++ (host ++ ['/'])) := rfl
    rw [hcap]
    exact rustReplace_once 'h' ("ttps://".data ++ (host ++ ['/'])) m.data rest
      (by rw [← hcap]; exact hocc)
  · intro u cap h
    unfold replace_domain
    rw [h]
    cases cap with
    | nil =>
      cases u with
      | mk data => rfl
    | cons p ps =>
      cases u with
      | mk data =>
        show some (String.mk (rustReplaceGo p ps (p :: ps) (data.length + 1) data)) =
          some (String.mk data)
        rw [rustReplaceGo_self p ps (data.length + 1) data (by omega)]
  · intro u m h
    unfold replace_domain
    rw [h]

/-- C5 counterexample: for the URL `https://a/https://a/b` the matched
prefix `https://a/` also occurs inside the path, and Rust
`String::replace` rewrites both occurrences, so the path suffix is not
preserved as the claim requires. -/
theorem replace_domain_counterexample :
    replace_domain "https://a/https://a/b" "https://m/" =
      some "https://m/https://m/b" ∧
    replace_domain "https://a/https://a/b" "https://m/" ≠
      some "https://m/https://a/b" := by
  constructor
  · rfl
  · decide

/-- C5 witness: the three parts of `replace_domain_spec` at concrete
inputs: rewriting `https://a/b` to the mirror, idempotence at the
captured prefix of `https://a/b`, and failure on the http URL
`http://a/b`. -/
theorem replace_domain_spec_witness :
    replace_domain (String.mk (httpsLit ++ (['a'] ++ '/' :: "b".data)))
        "https://m/" = some (String.mk ("https://m/".data ++ "b".data)) ∧
    replace_domain "https://a/b" (String.mk "https://a/".data) =
      some "https://a/b" ∧
    replace_domain "http://a/b" "https://m/" = none :=
  ⟨replace_domain_spec.1 ['a'] "b".data "https://m/" (by decide) (by decide)
      (by decide),
   replace_domain_spec.2.1 "https://a/b" "https://a/".data (by decide),
   replace_domain_spec.2.2 "http://a/b" "https://m/" (by decide)⟩

/-! ## Claim C6: missing version id -/

/-- C6 (amended): when the configured `game_version` equals no manifest
entry id, `get_version_json` panics — the source calls
`.find(..).unwrap()` on `None` — rather than returning any error value
to the caller. -/
theorem get_version_json_absent_panics :
    ∀ (env : Env) (cfg : RuntimeConfig) (m : VersionManifestJson),
    env.manifestNet (manifestUrl cfg) = some m →
    (∀ v ∈ m.versions, v.id ≠ cfg.game_version) →
    get_version_json env cfg = RRes.panicked := by
  intro env cfg m hm habs
  have hfind : m.versions.find? (fun x => x.id == cfg.game_version) = none :=
    List.find?_eq_none.mpr (fun x hx => by simp [habs x hx])
  simp only [get_version_json, hm, hfind]

/-- C6 counterexample: with version "1" absent from the manifest the run
panics; it does not surface any error value (such as a VersionNotFound
error) to the caller. -/
theorem get_version_json_counterexample :
    get_version_json cexEnvC6 cexCfgC6 = RRes.panicked ∧
    (¬ ∃ e, get_version_json cexEnvC6 cexCfgC6 = RRes.err e) := by
  constructor
  · rfl
  · rintro ⟨e, he⟩
    rw [show get_version_json cexEnvC6 cexCfgC6 = RRes.panicked from rfl] at he
    exact RRes.noConfusion he

/-- C6 witness: `get_version_json_absent_panics` at the concrete
environment and configuration above. -/
theorem get_version_json_absent_panics_witness :
    get_version_json cexEnvC6 cexCfgC6 = RRes.panicked :=
  get_version_json_absent_panics cexEnvC6 cexCfgC6
    (VersionManifestJson.mk [VersionEntry.mk "2" "release" "https://a/b"])
    rfl (by decide)

/-! ## The object sync loop: structural lemmas -/

/-- A successful fetcher result is verified: its digest is the expected
one. -/
theorem fetchLoop_ok_verified (net : Nat → SendOutcome) (url c : String)
    (d : Bytes) : ∀ (n k : Nat),
    (fetchLoop net url c n k).1 = Except.ok d → sha1hex d = c := by
  intro n
  induction n with
  | zero => intro k h; exact absurd h (by simp [fetchLoop])
  | succ n ih =>
    intro k h
    cases hnk : net k with
    | sendErr =>
      exact ih (k + 1) (by rw [fetchLoop_step net c url k n (Or.inl hnk)] at h; exact h)
    | bodyErr =>
      rw [fetchLoop_bodyErr net url c n k hnk] at h
      exact absurd h (by simp)
    | body d2 =>
      cases hc : sha1_cmp d2 c with
      | eq =>
        rw [fetchLoop_match net url c d2 n k hnk hc] at h
        have hd : d2 = d := by simpa using h
        subst hd
        exact (sha1_cmp_eq_iff d2 c).mp hc
      | lt =>
        exact ih (k + 1)
          (by rw [fetchLoop_step net c url k n (Or.inr ⟨d2, hnk, by simp [hc]⟩)] at h
              exact h)
      | gt =>
        exact ih (k + 1)
          (by rw [fetchLoop_step net c url k n (Or.inr ⟨d2, hnk, by simp [hc]⟩)] at h
              exact h)

/-- `install_bytes_with_timeout` only returns verified bytes. -/
theorem install_bytes_ok_verified (net : Nat → SendOutcome) (url c : String)
    (d : Bytes) (h : (install_bytes_with_timeout net url c).1 = Except.ok d) :
    sha1hex d = c :=
  fetchLoop_ok_verified net url c d 3 0 h

/-- Looking a path up after a write. -/
theorem lookupFs_fsWrite (fs : Fs) (p q : String) (d : Bytes) :
    lookupFs (fsWrite fs q d) p = if p = q then some d else lookupFs fs p := rfl

/-- A path with content exists. -/
theorem path_exists_of_lookup (fs : Fs) (p : String) (d : Bytes)
    (h : lookupFs fs p = some d) : path_exists fs p = true := by
  simp [path_exists, h]

/-- The object sync loop never deletes or modifies an existing file. -/
theorem install_assets_go_preserves (onet : String → Nat → SendOutcome)
    (cfg : RuntimeConfig) :
    ∀ (objs : List (String × ObjectEntry)) (fs : Fs) (k : Nat) (p : String)
      (d : Bytes), lookupFs fs p = some d →
    lookupFs (install_assets_go onet cfg objs fs k).2.1 p = some d := by
  intro objs
  induction objs with
  | nil => intro fs k p d h; exact h
  | cons nv rest ih =>
    intro fs k p d h
    simp only [install_assets_go]
    by_cases hex : path_exists fs (objPath nv.2.hash) = true
    · rw [if_pos hex]
      exact ih fs k p d h
    · rw [if_neg hex]
      cases hfetch : (install_bytes_with_timeout (onet (objUrl cfg nv.2.hash))
          (objUrl cfg nv.2.hash) nv.2.hash).1 with
      | error e => exact h
      | ok data =>
        have h2 : lookupFs (fsWrite fs (objPath nv.2.hash) data) p = some d := by
          rw [lookupFs_fsWrite]
          by_cases hpq : p = objPath nv.2.hash
          · exact absurd (hpq ▸ path_exists_of_lookup fs p d h) hex
          · rw [if_neg hpq]; exact h
        exact ih (fsWrite fs (objPath nv.2.hash) data) (k + 1) p d h2

/-- Every file the object sync loop creates sits at the hash-derived path
of a verified content. -/
theorem install_assets_go_writes (onet : String → Nat → SendOutcome)
    (cfg : RuntimeConfig) :
    ∀ (objs : List (String × ObjectEntry)) (fs : Fs) (k : Nat) (p : String)
      (d : Bytes),
    lookupFs (install_assets_go onet cfg objs fs k).2.1 p = some d →
    lookupFs fs p = some d ∨ ∃ h, p = objPath h ∧ sha1hex d = h := by
  intro objs
  induction objs with
  | nil => intro fs k p d h; exact Or.inl h
  | cons nv rest ih =>
    intro fs k p d
    simp only [install_assets_go]
    by_cases hex : path_exists fs (objPath nv.2.hash) = true
    · rw [if_pos hex]
      exact ih fs k p d
    · rw [if_neg hex]
      cases hfetch : (install_bytes_with_timeout (onet (objUrl cfg nv.2.hash))
          (objUrl cfg nv.2.hash) nv.2.hash).1 with
      | error e => intro h; exact Or.inl h
      | ok data =>
        intro h
        have h2 : lookupFs (install_assets_go onet cfg rest
            (fsWrite fs (objPath nv.2.hash) data) (k + 1)).2.1 p = some d := h
        rcases ih (fsWrite fs (objPath nv.2.hash) data) (k + 1) p d h2 with h3 | h3
        · rw [lookupFs_fsWrite] at h3
          by_cases hpq : p = objPath nv.2.hash
          · rw [if_pos hpq] at h3
            injection h3 with h4
            refine Or.inr ⟨nv.2.hash, hpq, ?_⟩
            rw [← h4]
            exact install_bytes_ok_verified (onet (objUrl cfg nv.2.hash))
              (objUrl cfg nv.2.hash) nv.2.hash data hfetch
          · rw [if_neg hpq] at h3
            exact Or.inl h3
        · exact Or.inr h3

/-- After a successful object sync run, every entry's hash-derived path
exists. -/
theorem install_assets_go_success_paths (onet : String → Nat → SendOutcome)
    (cfg : RuntimeConfig) :
    ∀ (objs : List (String × ObjectEntry)) (fs : Fs) (k : Nat),
    (install_assets_go onet cfg objs fs k).1 = Except.ok () →
    ∀ nv ∈ objs,
      path_exists (install_assets_go onet cfg objs fs k).2.1 (objPath nv.2.hash) = true := by
  intro objs
  induction objs with
  | nil => intro fs k _ nv hnv; exact absurd hnv (List.not_mem_nil nv)
  | cons nv0 rest ih =>
    intro fs k hok nv hnv
    simp only [install_assets_go] at hok ⊢
    by_cases hex : path_exists fs (objPath nv0.2.hash) = true
    · rw [if_pos hex] at hok ⊢
      rcases List.mem_cons.mp hnv with heq | hnv2
      · subst heq
        obtain ⟨d, hd⟩ := Option.isSome_iff_exists.mp hex
        exact path_exists_of_lookup _ _ d
          (install_assets_go_preserves onet cfg rest fs k _ d hd)
      · exact ih fs k hok nv hnv2
    · rw [if_neg hex] at hok ⊢
      cases hfetch : (install_bytes_with_timeout (onet (objUrl cfg nv0.2.hash))
          (objUrl cfg nv0.2.hash) nv0.2.hash).1 with
      | error e => simp [hfetch] at hok
      | ok data =>
        simp only [hfetch] at hok ⊢
        rcases List.mem_cons.mp hnv with heq | hnv2
        · subst heq
          have hd : lookupFs (fsWrite fs (objPath nv.2.hash) data)
              (objPath nv.2.hash) = some data := by
            rw [lookupFs_fsWrite]
            simp
          exact path_exists_of_lookup _ _ data
            (install_assets_go_preserves onet cfg rest _ (k + 1) _ data hd)
        · exact ih _ (k + 1) hok nv hnv2

/-- When every object is already present the loop only skips: same
filesystem, no fetcher calls. -/
theorem install_assets_go_skip_all (onet : String → Nat → SendOutcome)
    (cfg : RuntimeConfig) :
    ∀ (objs : List (String × ObjectEntry)) (fs : Fs) (k : Nat),
    (∀ nv ∈ objs, path_exists fs (objPath nv.2.hash) = true) →
    install_assets_go onet cfg objs fs k = (Except.ok (), fs, k) := by
  intro objs
  induction objs with
  | nil => intro fs k _; rfl
  | cons nv rest ih =>
    intro fs k hall
    simp only [install_assets_go]
    rw [if_pos (hall nv (by simp))]
    exact ih fs k (fun x hx => hall x (by simp [hx]))

/-- Character-list form of a hash-derived object path. -/
theorem objPath_data (h : String) :
    (objPath h).data =
      "assets/objects/".data ++ (h.data.take 2 ++ '/' :: h.data) := by
  unfold objPath slice2
  simp [String.data_append, List.append_assoc]

/-- Character-list form of an asset index file path. -/
theorem idxfile_data (id : String) :
    ("assets/indexes/" ++ id ++ ".json").data =
      "assets/indexes/".data ++ (id.data ++ ".json".data) := by
  simp [String.data_append, List.append_assoc]

/-- Character-list form of the version descriptor file path. -/
theorem versionJsonFile_data (cfg : RuntimeConfig) :
    (versionJsonFile cfg).data =
      "versions/".data ++
        (cfg.game_version.data ++ ('/' :: (cfg.game_version.data ++ ".json".data))) := by
  unfold versionJsonFile
  simp [String.data_append, List.append_assoc]

/-- `takeWhile` stops exactly at the first slash. -/
theorem takeWhile_stop (t : List Char) : ∀ (r : List Char),
    (∀ x ∈ t, x ≠ '/') →
    (t ++ '/' :: r).takeWhile (fun x => x != '/') = t := by
  induction t with
  | nil => intro r _; simp [List.takeWhile]
  | cons c cs ih =>
    intro r h
    simp only [List.cons_append, List.takeWhile]
    rw [show (c != '/') = true from by simp [h c (by simp)]]
    simp [ih r (fun x hx => h x (by simp [hx]))]

/-- Two decompositions ending in a slash-free segment after a slash agree
on that segment. -/
theorem last_seg_eq (a b h1 h2 : List Char)
    (ha : ∀ x ∈ h1, x ≠ '/') (hb : ∀ x ∈ h2, x ≠ '/')
    (he : a ++ '/' :: h1 = b ++ '/' :: h2) : h1 = h2 := by
  have hr := congrArg List.reverse he
  simp only [List.reverse_append, List.reverse_cons] at hr
  have h1r := congrArg (List.takeWhile (fun x => x != '/')) hr
  rw [List.append_assoc, List.append_assoc] at h1r
  rw [show ['/'] ++ a.reverse = '/' :: a.reverse from rfl,
      show ['/'] ++ b.reverse = '/' :: b.reverse from rfl] at h1r
  rw [takeWhile_stop h1.reverse a.reverse (fun x hx => ha x (List.mem_reverse.mp hx)),
      takeWhile_stop h2.reverse b.reverse (fun x hx => hb x (List.mem_reverse.mp hx))] at h1r
  exact List.reverse_injective h1r

/-- Hash-derived paths of slash-free hashes are injective in the hash. -/
theorem objPath_inj (h1 h2 : String)
    (ha : ∀ x ∈ h1.data, x ≠ '/') (hb : ∀ x ∈ h2.data, x ≠ '/')
    (he : objPath h1 = objPath h2) : h1 = h2 := by
  have hd := congrArg String.data he
  rw [objPath_data, objPath_data, ← List.append_assoc, ← List.append_assoc] at hd
  have hdata := last_seg_eq _ _ _ _ ha hb hd
  cases h1 with
  | mk d1 =>
    cases h2 with
    | mk d2 => exact congrArg String.mk hdata

/-- Every object path lives under `assets/objects/`. -/
theorem objPath_startsWith (h : String) :
    strStartsWith "assets/objects/" (objPath h) = true := by
  unfold strStartsWith
  rw [objPath_data]
  exact isPrefixOf_append_self _ _

/-- A path under `assets/objects/` is never an asset index file path. -/
theorem obj_prefixed_ne_idxfile (p id : String)
    (hpre : strStartsWith "assets/objects/" p = true) :
    p ≠ "assets/indexes/" ++ id ++ ".json" := by
  obtain ⟨t, ht⟩ := (isPrefixOf_iff_exists _ _).mp hpre
  intro he
  have hd := congrArg String.data he
  rw [ht, idxfile_data] at hd
  exact ne_of_distinct_starts "assets/objects/".data "assets/indexes/".data
    t _ 15 (by decide) (by decide) (by decide) hd

/-- A path under `assets/objects/` is never the version descriptor file. -/
theorem obj_prefixed_ne_vfile (p : String) (cfg : RuntimeConfig)
    (hpre : strStartsWith "assets/objects/" p = true) :
    p ≠ versionJsonFile cfg := by
  obtain ⟨t, ht⟩ := (isPrefixOf_iff_exists _ _).mp hpre
  intro he
  have hd := congrArg String.data he
  rw [ht, versionJsonFile_data] at hd
  exact ne_of_distinct_starts "assets/objects/".data "versions/".data
    t _ 7 (by decide) (by decide) (by decide) hd

/-- The version descriptor file is never an asset index file path. -/
theorem vfile_ne_idxfile (cfg : RuntimeConfig) (id : String) :
    versionJsonFile cfg ≠ "assets/indexes/" ++ id ++ ".json" := by
  intro he
  have hd := congrArg String.data he
  rw [versionJsonFile_data, idxfile_data] at hd
  exact ne_of_distinct_starts "versions/".data "assets/indexes/".data
    _ _ 7 (by decide) (by decide) (by decide) hd

/-- The version descriptor file is never an object path. -/
theorem vfile_ne_objPath (cfg : RuntimeConfig) (h : String) :
    versionJsonFile cfg ≠ objPath h := by
  intro he
  have hd := congrArg String.data he
  rw [versionJsonFile_data, objPath_data] at hd
  exact ne_of_distinct_starts "versions/".data "assets/objects/".data
    _ _ 7 (by decide) (by decide) (by decide) hd

/-! ## The asset-index retry loop: structural lemmas -/

/-- Apart from the index file itself, the index loop never deletes or
modifies an existing file. -/
theorem idxLoop_preserves (tnet : Nat → TextOutcome)
    (parseA : String → Option AssetJson) (onet : String → Nat → SendOutcome)
    (cfg : RuntimeConfig) (ass : AssetIndex) (idxfile : String) :
    ∀ (fuel i : Nat) (fs : Fs) (p : String) (d : Bytes), p ≠ idxfile →
    lookupFs fs p = some d →
    lookupFs (idxLoop tnet parseA onet cfg ass idxfile fs i fuel).fs p = some d := by
  intro fuel
  induction fuel with
  | zero => intro i fs p d _ h; exact h
  | succ fuel ih =>
    intro i fs p d hne h
    cases ht : tnet i with
    | sendErr => simp only [idxLoop, ht]; exact h
    | textErr => simp only [idxLoop, ht]; exact h
    | text data =>
      simp only [idxLoop, ht]
      by_cases hv : sha1_cmp (strBytes data) ass.sha1 = Ordering.eq
      · rw [if_pos hv]
        have hw : lookupFs (fsWrite fs idxfile (strBytes data)) p = some d := by
          rw [lookupFs_fsWrite, if_neg hne]
          exact h
        cases hp : parseA data with
        | none => simp only [hp]; exact hw
        | some aj =>
          simp only [hp]
          have hp2 := install_assets_go_preserves onet cfg aj.objects
            (fsWrite fs idxfile (strBytes data)) 0 p d hw
          cases hx : install_assets onet cfg aj (fsWrite fs idxfile (strBytes data)) with
          | mk r rest =>
            cases rest with
            | mk fs2 f =>
              rw [show install_assets_go onet cfg aj.objects
                  (fsWrite fs idxfile (strBytes data)) 0 = (r, fs2, f) from hx] at hp2
              cases r with
              | error e => exact hp2
              | ok u => exact hp2
      · rw [if_neg hv]
        by_cases hi : i = 3
        · rw [if_pos hi]; exact h
        · rw [if_neg hi]; exact ih (i + 1) fs p d hne h

/-- Every file the index loop creates is either the verified index body
at the index file path, or a verified object at its hash-derived path. -/
theorem idxLoop_writes (tnet : Nat → TextOutcome)
    (parseA : String → Option AssetJson) (onet : String → Nat → SendOutcome)
    (cfg : RuntimeConfig) (ass : AssetIndex) (idxfile : String) :
    ∀ (fuel i : Nat) (fs : Fs) (p : String) (d : Bytes),
    lookupFs (idxLoop tnet parseA onet cfg ass idxfile fs i fuel).fs p = some d →
    lookupFs fs p = some d ∨
    (p = idxfile ∧ ∃ (j : Nat) (s : String), tnet j = TextOutcome.text s ∧
      d = strBytes s ∧ sha1hex (strBytes s) = ass.sha1) ∨
    (∃ h, p = objPath h ∧ sha1hex d = h) := by
  intro fuel
  induction fuel with
  | zero => intro i fs p d h; exact Or.inl h
  | succ fuel ih =>
    intro i fs p d
    cases ht : tnet i with
    | sendErr => simp only [idxLoop, ht]; intro h; exact Or.inl h
    | textErr => simp only [idxLoop, ht]; intro h; exact Or.inl h
    | text data =>
      simp only [idxLoop, ht]
      by_cases hv : sha1_cmp (strBytes data) ass.sha1 = Ordering.eq
      · rw [if_pos hv]
        have hcert : sha1hex (strBytes data) = ass.sha1 := (sha1_cmp_eq_iff _ _).mp hv
        cases hp : parseA data with
        | none =>
          simp only [hp]
          intro h
          rw [lookupFs_fsWrite] at h
          by_cases hpq : p = idxfile
          · rw [if_pos hpq] at h
            injection h with h4
            exact Or.inr (Or.inl ⟨hpq, i, data, ht, h4.symm, hcert⟩)
          · rw [if_neg hpq] at h
            exact Or.inl h
        | some aj =>
          simp only [hp]
          cases hx : install_assets onet cfg aj (fsWrite fs idxfile (strBytes data)) with
          | mk r rest =>
            cases rest with
            | mk fs2 f =>
              cases r with
              | error e =>
                intro h
                have h2 : lookupFs fs2 p = some d := h
                have h3 : lookupFs (install_assets_go onet cfg aj.objects
                    (fsWrite fs idxfile (strBytes data)) 0).2.1 p = some d := by
                  rw [show install_assets_go onet cfg aj.objects
                      (fsWrite fs idxfile (strBytes data)) 0 = (Except.error e, fs2, f) from hx]
                  exact h2
                rcases install_assets_go_writes onet cfg aj.objects _ 0 p d h3 with h4 | h4
                · rw [lookupFs_fsWrite] at h4
                  by_cases hpq : p = idxfile
                  · rw [if_pos hpq] at h4
                    injection h4 with h5
                    exact Or.inr (Or.inl ⟨hpq, i, data, ht, h5.symm, hcert⟩)
                  · rw [if_neg hpq] at h4
                    exact Or.inl h4
                · exact Or.inr (Or.inr h4)
              | ok u =>
                intro h
                have h2 : lookupFs fs2 p = some d := h
                have h3 : lookupFs (install_assets_go onet cfg aj.objects
                    (fsWrite fs idxfile (strBytes data)) 0).2.1 p = some d := by
                  rw [show install_assets_go onet cfg aj.objects
                      (fsWrite fs idxfile (strBytes data)) 0 = (Except.ok u, fs2, f) from hx]
                  exact h2
                rcases install_assets_go_writes onet cfg aj.objects _ 0 p d h3 with h4 | h4
                · rw [lookupFs_fsWrite] at h4
                  by_cases hpq : p = idxfile
                  · rw [if_pos hpq] at h4
                    injection h4 with h5
                    exact Or.inr (Or.inl ⟨hpq, i, data, ht, h5.symm, hcert⟩)
                  · rw [if_neg hpq] at h4
                    exact Or.inl h4
                · exact Or.inr (Or.inr h4)
      · rw [if_neg hv]
        by_cases hi : i = 3
        · rw [if_pos hi]; intro h; exact Or.inl h
        · rw [if_neg hi]; exact ih (i + 1) fs p d

/-- `install_assets_and_asset_index` preserves any file that is not an
asset index file. -/
theorem aaidx_preserves (env : Env) (cfg : RuntimeConfig) (vj : JsonValue)
    (fs : Fs) (p : String) (d : Bytes)
    (hne : ∀ id, p ≠ "assets/indexes/" ++ id ++ ".json")
    (h : lookupFs fs p = some d) :
    lookupFs (install_assets_and_asset_index env cfg vj fs).fs p = some d := by
  cases hfv : from_value_assetIndex (jsonGet vj "assetIndex") with
  | none => simp only [install_assets_and_asset_index, hfv]; exact h
  | some ass =>
    cases hrd : replace_domain ass.url cfg.mirror.version_manifest with
    | none => simp only [install_assets_and_asset_index, hfv, hrd]; exact h
    | some url =>
      simp only [install_assets_and_asset_index, hfv, hrd]
      exact idxLoop_preserves (env.idxNet url) env.parseAssetJson env.objNet cfg
        ass ("assets/indexes/" ++ ass.id ++ ".json") 4 0 fs p d (hne ass.id) h

/-- `install_mc` preserves every file under `assets/objects/`. -/
theorem install_mc_preserves_objects (env : Env) (cfg : RuntimeConfig)
    (fs : Fs) (p : String) (d : Bytes)
    (hpre : strStartsWith "assets/objects/" p = true)
    (h : lookupFs fs p = some d) :
    lookupFs (install_mc env cfg fs).2 p = some d := by
  cases hgv : get_version_json env cfg with
  | panicked => simp only [install_mc, hgv]; exact h
  | err e => simp only [install_mc, hgv]; exact h
  | ok vj =>
    simp only [install_mc, hgv]
    have h1 : lookupFs (fsWrite fs (versionJsonFile cfg)
        (strBytes (env.pretty vj))) p = some d := by
      rw [lookupFs_fsWrite, if_neg (obj_prefixed_ne_vfile p cfg hpre)]
      exact h
    have h2 := aaidx_preserves env cfg vj _ p d
      (fun id => obj_prefixed_ne_idxfile p id hpre) h1
    cases hx : install_assets_and_asset_index env cfg vj
        (fsWrite fs (versionJsonFile cfg) (strBytes (env.pretty vj))) with
    | mk r fs2 att f =>
      rw [hx] at h2
      cases r with
      | ok u => exact h2
      | err e => exact h2
      | panicked => exact h2

/-! ## Claim C7: the object store is self-certifying and append-only -/

/-- C7: every file the object sync loop creates sits at the path
`assets/objects/<h[0..2]>/<h>` for the lowercase hex SHA-1 digest `h` of
the bytes written (the fetcher verified them before the write); the loop
never modifies an existing file; and a whole `install_mc` run never
deletes or modifies any existing file under `assets/objects/`. -/
theorem object_store_self_certifying :
    (∀ (onet : String → Nat → SendOutcome) (cfg : RuntimeConfig)
       (aj : AssetJson) (fs : Fs) (p : String) (d : Bytes),
       lookupFs (install_assets onet cfg aj fs).2.1 p = some d →
       lookupFs fs p = some d ∨ ∃ h, p = objPath h ∧ sha1hex d = h) ∧
    (∀ (onet : String → Nat → SendOutcome) (cfg : RuntimeConfig)
       (aj : AssetJson) (fs : Fs) (p : String) (d : Bytes),
       lookupFs fs p = some d →
       lookupFs (install_assets onet cfg aj fs).2.1 p = some d) ∧
    (∀ (env : Env) (cfg : RuntimeConfig) (fs : Fs) (p : String) (d : Bytes),
       strStartsWith "assets/objects/" p = true →
       lookupFs fs p = some d →
       lookupFs (install_mc env cfg fs).2 p = some d) := by
  refine ⟨?_, ?_, ?_⟩
  · intro onet cfg aj fs p d h
    exact install_assets_go_writes onet cfg aj.objects fs 0 p d h
  · intro onet cfg aj fs p d h
    exact install_assets_go_preserves onet cfg aj.objects fs 0 p d h
  · intro env cfg fs p d hpre h
    exact install_mc_preserves_objects env cfg fs p d hpre h

/-! ## Claim C8: verify-then-persist for the asset index -/

/-- C8: any content found at the asset index file path after
`install_assets_and_asset_index` either was there before the run, or is
the verbatim UTF-8 body of a network response whose SHA-1 digest equals
the descriptor's declared `sha1` — the body is only written inside the
digest-match branch, unmodified (verify-then-persist). -/
theorem index_verify_then_persist :
    ∀ (env : Env) (cfg : RuntimeConfig) (vj : JsonValue) (fs : Fs)
      (ass : AssetIndex) (url : String) (d : Bytes),
    from_value_assetIndex (jsonGet vj "assetIndex") = some ass →
    replace_domain ass.url cfg.mirror.version_manifest = some url →
    lookupFs (install_assets_and_asset_index env cfg vj fs).fs
      ("assets/indexes/" ++ ass.id ++ ".json") = some d →
    lookupFs fs ("assets/indexes/" ++ ass.id ++ ".json") = some d ∨
    ∃ (j : Nat) (s : String), env.idxNet url j = TextOutcome.text s ∧
      d = strBytes s ∧ sha1hex (strBytes s) = ass.sha1 := by
  intro env cfg vj fs ass url d hfv hrd h
  rw [show install_assets_and_asset_index env cfg vj fs =
      idxLoop (env.idxNet url) env.parseAssetJson env.objNet cfg ass
        ("assets/indexes/" ++ ass.id ++ ".json") fs 0 4 from by
      simp only [install_assets_and_asset_index, hfv, hrd]] at h
  rcases idxLoop_writes (env.idxNet url) env.parseAssetJson env.objNet cfg ass
      ("assets/indexes/" ++ ass.id ++ ".json") 4 0 fs _ d h with h2 | h2 | h2
  · exact Or.inl h2
  · exact Or.inr h2.2
  · obtain ⟨hh, hp, _⟩ := h2
    exact absurd hp.symm
      (obj_prefixed_ne_idxfile (objPath hh) ass.id (objPath_startsWith hh))

/-- C8 witness: `index_verify_then_persist` on the concrete run above,
whose final filesystem holds the verified empty body at
`assets/indexes/5.json`. -/
theorem index_verify_then_persist_witness :
    lookupFs [] ("assets/indexes/" ++ "5" ++ ".json") = some [] ∨
    ∃ (j : Nat) (s : String), c8Env.idxNet "https://m/x" j = TextOutcome.text s ∧
      ([] : Bytes) = strBytes s ∧ sha1hex (strBytes s) = hashNil :=
  index_verify_then_persist c8Env cexCfgA c8Vj []
    (AssetIndex.mk "5" "https://a/x" hashNil 1) "https://m/x" []
    (by decide) (by decide) (by decide)

/-! ## Claim C3: the asset-index retry budget -/

/-- One mismatching iteration of the index loop moves to the next
attempt (only when the terminal `i == 3` check does not fire). -/
theorem idxLoop_mismatch_step (tnet : Nat → TextOutcome)
    (parseA : String → Option AssetJson) (onet : String → Nat → SendOutcome)
    (cfg : RuntimeConfig) (ass : AssetIndex) (idxfile : String) (fs : Fs)
    (i fuel : Nat) (hi : i ≠ 3) (s : String)
    (hs : tnet i = TextOutcome.text s)
    (hne : sha1_cmp (strBytes s) ass.sha1 ≠ Ordering.eq) :
    idxLoop tnet parseA onet cfg ass idxfile fs i (fuel + 1) =
      idxLoop tnet parseA onet cfg ass idxfile fs (i + 1) fuel := by
  simp only [idxLoop, hs]
  rw [if_neg hne, if_neg hi]

/-- When every attempt's body mismatches, the loop makes exactly 4 fetch
attempts and returns the terminal error with the filesystem untouched. -/
theorem idxLoop_all_mismatch (tnet : Nat → TextOutcome)
    (parseA : String → Option AssetJson) (onet : String → Nat → SendOutcome)
    (cfg : RuntimeConfig) (ass : AssetIndex) (idxfile : String) (fs : Fs)
    (h : ∀ i, ∃ s, tnet i = TextOutcome.text s ∧
        sha1_cmp (strBytes s) ass.sha1 ≠ Ordering.eq) :
    idxLoop tnet parseA onet cfg ass idxfile fs 0 4 =
      IdxOut.mk (RRes.err PError.cantGetAssets) fs 4 0 := by
  obtain ⟨s0, hs0, hn0⟩ := h 0
  obtain ⟨s1, hs1, hn1⟩ := h 1
  obtain ⟨s2, hs2, hn2⟩ := h 2
  obtain ⟨s3, hs3, hn3⟩ := h 3
  rw [idxLoop_mismatch_step tnet parseA onet cfg ass idxfile fs 0 3
        (by omega) s0 hs0 hn0,
      idxLoop_mismatch_step tnet parseA onet cfg ass idxfile fs 1 2
        (by omega) s1 hs1 hn1,
      idxLoop_mismatch_step tnet parseA onet cfg ass idxfile fs 2 1
        (by omega) s2 hs2 hn2]
  simp only [idxLoop, hs3]
  rw [if_neg hn3]
  simp

/-- C3 (amended): the asset-index fetch loop is `for i in 0..=3`, four
iterations; against a server whose body never matches the descriptor's
sha1 it performs exactly 4 fetch attempts and then returns the terminal
"can not get assets json" error, leaving the filesystem unchanged. -/
theorem asset_index_retry_budget :
    ∀ (env : Env) (cfg : RuntimeConfig) (vj : JsonValue) (fs : Fs)
      (ass : AssetIndex) (url : String),
    from_value_assetIndex (jsonGet vj "assetIndex") = some ass →
    replace_domain ass.url cfg.mirror.version_manifest = some url →
    (∀ i, ∃ s, env.idxNet url i = TextOutcome.text s ∧
        sha1_cmp (strBytes s) ass.sha1 ≠ Ordering.eq) →
    install_assets_and_asset_index env cfg vj fs =
      IdxOut.mk (RRes.err PError.cantGetAssets) fs 4 0 := by
  intro env cfg vj fs ass url hfv hrd hmis
  simp only [install_assets_and_asset_index, hfv, hrd]
  exact idxLoop_all_mismatch (env.idxNet url) env.parseAssetJson env.objNet
    cfg ass ("assets/indexes/" ++ ass.id ++ ".json") fs hmis

/-- C3 counterexample: with a never-matching body the loop performs 4
fetch attempts — not 3 as the claim states — before the terminal error. -/
theorem asset_index_retry_counterexample :
    (install_assets_and_asset_index c3Env cexCfgA c3Vj []).attempts = 4 ∧
    (install_assets_and_asset_index c3Env cexCfgA c3Vj []).attempts ≠ 3 ∧
    (install_assets_and_asset_index c3Env cexCfgA c3Vj []).res =
      RRes.err PError.cantGetAssets := by
  refine ⟨?_, ?_, ?_⟩ <;> decide

/-- C3 witness: `asset_index_retry_budget` on the concrete never-matching
environment. -/
theorem asset_index_retry_budget_witness :
    install_assets_and_asset_index c3Env cexCfgA c3Vj [] =
      IdxOut.mk (RRes.err PError.cantGetAssets) [] 4 0 :=
  asset_index_retry_budget c3Env cexCfgA c3Vj []
    (AssetIndex.mk "5" "https://a/x" "00" 1) "https://m/x"
    (by decide) (by decide) (fun i => ⟨"Z", rfl, by decide⟩)

/-! ## Claim C4: one pass fills the store; a second pass is silent -/

/-- C4 (amended): after a successful object sync run every entry's
hash-derived path holds a file; a second run over the same index performs
zero fetcher calls and leaves the filesystem unchanged (every object is
skipped because its file exists); and when the entries' hashes are
pairwise distinct (and slash-free, as hex digests are), the number of
distinct hash-derived paths holding files is exactly the number K of
entries — with a duplicated hash, strictly fewer files than entries
exist. -/
theorem sync_objects_complete :
    ∀ (onet : String → Nat → SendOutcome) (cfg : RuntimeConfig)
      (aj : AssetJson) (fs : Fs),
    (install_assets onet cfg aj fs).1 = Except.ok () →
    (∀ nv ∈ aj.objects,
        path_exists (install_assets onet cfg aj fs).2.1 (objPath nv.2.hash) = true) ∧
    install_assets onet cfg aj (install_assets onet cfg aj fs).2.1 =
      (Except.ok (), (install_assets onet cfg aj fs).2.1, 0) ∧
    ((aj.objects.map (fun nv => nv.2.hash)).Nodup →
     (∀ nv ∈ aj.objects, ∀ x ∈ nv.2.hash.data, x ≠ '/') →
     ((aj.objects.map (fun nv => objPath nv.2.hash)).dedup.filter
         (fun q => path_exists (install_assets onet cfg aj fs).2.1 q)).length =
       aj.objects.length) := by
  intro onet cfg aj fs hok
  have hpaths := install_assets_go_success_paths onet cfg aj.objects fs 0 hok
  refine ⟨hpaths, ?_, ?_⟩
  · exact install_assets_go_skip_all onet cfg aj.objects _ 0 hpaths
  · intro hnodup hslash
    have hpn : (aj.objects.map (fun nv => objPath nv.2.hash)).Nodup := by
      rw [show aj.objects.map (fun nv => objPath nv.2.hash) =
          (aj.objects.map (fun nv => nv.2.hash)).map objPath from by
          rw [List.map_map]; rfl]
      refine hnodup.map_on ?_
      intro x hx y hy hxy
      obtain ⟨nvx, hnvx, rfl⟩ := List.mem_map.mp hx
      obtain ⟨nvy, hnvy, rfl⟩ := List.mem_map.mp hy
      exact objPath_inj _ _ (hslash nvx hnvx) (hslash nvy hnvy) hxy
    have hall : ∀ q ∈ aj.objects.map (fun nv => objPath nv.2.hash),
        path_exists (install_assets onet cfg aj fs).2.1 q = true := by
      intro q hq
      obtain ⟨nv, hnv, rfl⟩ := List.mem_map.mp hq
      exact hpaths nv hnv
    rw [List.dedup_eq_self.mpr hpn, List.filter_eq_self.mpr hall,
        List.length_map]

/-- C4 counterexample: the index has K = 2 distinct entries but both
share one hash, so after a successful run exactly one file exists at the
hash-derived paths — not K. -/
theorem sync_objects_counterexample :
    (install_assets emptyBodyNet cexCfgA ajDup []).1 = Except.ok () ∧
    ((ajDup.objects.map (fun nv => objPath nv.2.hash)).dedup.filter
        (fun q => path_exists (install_assets emptyBodyNet cexCfgA ajDup []).2.1 q)).length = 1 ∧
    ((ajDup.objects.map (fun nv => objPath nv.2.hash)).dedup.filter
        (fun q => path_exists (install_assets emptyBodyNet cexCfgA ajDup []).2.1 q)).length ≠
      ajDup.objects.length := by
  refine ⟨rfl, by decide, by decide⟩

/-- C4 witness: `sync_objects_complete` for a successful one-object run
from the empty filesystem. -/
theorem sync_objects_complete_witness :
    (∀ nv ∈ ajOne.objects,
        path_exists (install_assets emptyBodyNet cexCfgA ajOne []).2.1 (objPath nv.2.hash) = true) ∧
    install_assets emptyBodyNet cexCfgA ajOne
        (install_assets emptyBodyNet cexCfgA ajOne []).2.1 =
      (Except.ok (), (install_assets emptyBodyNet cexCfgA ajOne []).2.1, 0) ∧
    ((ajOne.objects.map (fun nv => nv.2.hash)).Nodup →
     (∀ nv ∈ ajOne.objects, ∀ x ∈ nv.2.hash.data, x ≠ '/') →
     ((ajOne.objects.map (fun nv => objPath nv.2.hash)).dedup.filter
         (fun q => path_exists (install_assets emptyBodyNet cexCfgA ajOne []).2.1 q)).length =
       ajOne.objects.length) :=
  sync_objects_complete emptyBodyNet cexCfgA ajOne [] rfl

/-- C7 witness: the self-certifying characterization applied to the file
created by the one-object run (its content is the empty buffer, whose
digest is the path hash). -/
theorem object_store_self_certifying_witness :
    lookupFs [] (objPath hashNil) = some [] ∨
    ∃ h, objPath hashNil = objPath h ∧ sha1hex [] = h :=
  object_store_self_certifying.1 emptyBodyNet cexCfgA ajOne []
    (objPath hashNil) [] (by decide)

/-! ## Claim C10: the version descriptor is persisted before asset sync -/

/-- C10: once `get_version_json` succeeds, `install_mc` writes the
pretty-printed descriptor to `versions/<v>/<v>.json` before starting the
asset phase, and that file is present in the final filesystem whatever
the asset phase does — in particular, when the asset phase fails with an
error, `install_mc` returns that error while the descriptor file has
already been created. -/
theorem install_mc_writes_version_json_first :
    ∀ (env : Env) (cfg : RuntimeConfig) (fs : Fs) (v : JsonValue),
    get_version_json env cfg = RRes.ok v →
    lookupFs (install_mc env cfg fs).2 (versionJsonFile cfg) =
      some (strBytes (env.pretty v)) ∧
    (∀ e, (install_assets_and_asset_index env cfg v
        (fsWrite fs (versionJsonFile cfg) (strBytes (env.pretty v)))).res =
          RRes.err e →
      (install_mc env cfg fs).1 = RRes.err e) := by
  intro env cfg fs v hgv
  simp only [install_mc, hgv]
  cases hx : install_assets_and_asset_index env cfg v
      (fsWrite fs (versionJsonFile cfg) (strBytes (env.pretty v))) with
  | mk r fs2 att f =>
    constructor
    · have h0 : lookupFs (fsWrite fs (versionJsonFile cfg)
          (strBytes (env.pretty v))) (versionJsonFile cfg) =
          some (strBytes (env.pretty v)) := by
        rw [lookupFs_fsWrite, if_pos rfl]
      have h1 := aaidx_preserves env cfg v _ (versionJsonFile cfg) _
        (fun id => vfile_ne_idxfile cfg id) h0
      rw [hx] at h1
      cases r with
      | ok u => exact h1
      | err e => exact h1
      | panicked => exact h1
    · intro e he
      have hr : r = RRes.err e := he
      subst hr
      rfl

/-- C10 witness: on the concrete run the asset phase fails with a serde
error, `install_mc` reports that error, and the version descriptor file
(content "P") is nonetheless on disk. -/
theorem install_mc_writes_version_json_first_witness :
    lookupFs (install_mc c10Env cexCfgA []).2 (versionJsonFile cexCfgA) =
      some (strBytes "P") ∧
    (install_mc c10Env cexCfgA []).1 = RRes.err PError.serde := by
  have main := install_mc_writes_version_json_first c10Env cexCfgA []
    (JsonValue.obj []) rfl
  exact ⟨main.1, main.2 PError.serde rfl⟩
